import Mathlib

/-!
Shallow embedding of the Stochastic Outlier Selection (SOS) detector from
`src/autotabular/algorithms/anomaly/sos.py`, over the real numbers.

Matrices are embedded as functions `Fin n → Fin m → ℝ`.  Floating-point
numbers are idealised as real numbers; a float NaN arising from the input is
modelled by `Option ℝ` at the `check_array` boundary, and the NaN test inside
the calibration loop is modelled by an `Option ℝ` value of `Hdiff` (in the
real-number semantics the entropy is never NaN, so the loop always passes
`some`; the `none` branch embeds the `np.isnan` recovery path of the source).
Fallible code returns `Except String`.
-/

namespace SOSModel

open scoped BigOperators

/-- Python's `str.lower` on a single character, as used by the `SOS`
constructor (`self.metric = metric.lower()`); faithful on the ASCII range that
metric names use: code points 65–90 are shifted up by 32. -/
def charLower (c : Char) : Char :=
  if 65 ≤ c.toNat ∧ c.toNat ≤ 90 then Char.ofNat (c.toNat + 32) else c

/-- Python's `str.lower` on a string (ASCII range), applied characterwise. -/
def strLower (s : String) : String :=
  ⟨s.data.map charLower⟩

/-- Configuration stored by `SOS.__init__`: contamination, perplexity, metric
name and eps.  The constructor lowercases the metric name. -/
structure SOSConfig where
  contamination : ℝ
  perplexity : ℝ
  metric : String
  eps : ℝ

/-- The `SOS.__init__` constructor: stores the parameters, lowercasing the
metric name (`self.metric = metric.lower()`). -/
def mkSOS (contamination perplexity : ℝ) (metric : String) (eps : ℝ) : SOSConfig :=
  ⟨contamination, perplexity, strLower metric, eps⟩

/-- The `'euclidean'` branch of `SOS._x2d`:
`D = np.sqrt(np.abs(np.add(np.add(-2 * np.dot(X, X.T), sumX).T, sumX)))`
with `sumX = np.sum(np.square(X), 1)`.  Entry `(i, j)` of the matrix under
the square root is `-2·(X Xᵀ)[j,i] + sumX[i] + sumX[j]`. -/
noncomputable def euclidD {n dd : ℕ} (X : Fin n → Fin dd → ℝ) : Fin n → Fin n → ℝ :=
  fun i j =>
    Real.sqrt |(-2 * ∑ k, X j k * X i k + ∑ k, X i k ^ 2) + ∑ k, X j k ^ 2|

/-- The dissimilarity computation `SOS._x2d`.  Dispatches on the stored metric
name: `'none'` (the mode the design spec calls "precomputed") requires a
square input and returns it unchanged, `'euclidean'` computes `euclidD`, and
any other name delegates to the external scipy pairwise-distance routine,
which is passed in as the collaborator `pd` (its errors propagate). -/
noncomputable def x2d {n dd : ℕ} (metric : String)
    (pd : String → (Fin n → Fin dd → ℝ) → Except String (Fin n → Fin n → ℝ))
    (X : Fin n → Fin dd → ℝ) : Except String (Fin n → Fin n → ℝ) :=
  if metric = "none" then
    if h : n = dd then
      .ok (fun i j => X i (Fin.cast h j))
    else
      .error "If you specify 'none' as the metric, the data set should be a square dissimilarity matrix"
  else if metric = "euclidean" then
    .ok (euclidD X)
  else
    pd metric X

/-- The entropy computed by `_get_perplexity` on the off-diagonal part `Di` of
row `i` of `D` (the source extracts `Di` by concatenating the column ranges
`0:i` and `i+1:n`; the three sums below range over exactly those columns):
`A = np.exp(-D * beta)`, `sumA = np.sum(A)`,
`H = np.log(sumA) + beta * np.sum(D * A) / sumA`. -/
noncomputable def getPerplexityH {n : ℕ} (D : Fin n → Fin n → ℝ) (i : Fin n)
    (beta : ℝ) : ℝ :=
  Real.log (∑ j ∈ Finset.univ.erase i, Real.exp (-D i j * beta)) +
    beta * (∑ j ∈ Finset.univ.erase i, D i j * Real.exp (-D i j * beta)) /
      (∑ j ∈ Finset.univ.erase i, Real.exp (-D i j * beta))

/-- The value `Hdiff = H - logU` tested by the calibration loop, as an
`Option ℝ`: `none` stands for a float NaN.  In the real-number semantics the
entropy is a genuine real number, so the computed `Hdiff` is always `some`;
the `none` case is kept so that the loop body embeds the full `np.isnan`
dispatch of the source. -/
noncomputable def hdiffOf {n : ℕ} (D : Fin n → Fin n → ℝ) (i : Fin n)
    (logU beta : ℝ) : Option ℝ :=
  some (getPerplexityH D i beta - logU)

/-- Per-row state of the calibration loop in `SOS._d2a`: the precision
`beta[i]` and the bisection bounds `betamin`/`betamax`, which start at
`-np.inf`/`np.inf` and are therefore extended reals. -/
structure RowState where
  beta : ℝ
  betamin : EReal
  betamax : EReal

/-- Initial per-row state of `_d2a`: `beta[i] = 1` (from `np.ones`),
`betamin = -np.inf`, `betamax = np.inf`. -/
def rowInit : RowState :=
  ⟨1, ⊥, ⊤⟩

/-- One iteration of the calibration loop body of `SOS._d2a` (lines 198–212):
on NaN shrink `beta` by 10 leaving the bounds alone; on `Hdiff > 0` record
`betamin` and double `beta` (or average with a finite `betamax`); otherwise
record `betamax` and halve `beta` (or average with a finite `betamin`). -/
noncomputable def bisectStep (s : RowState) (hdiff : Option ℝ) : RowState :=
  match hdiff with
  | none => { s with beta := s.beta / 10 }
  | some hd =>
    if 0 < hd then
      { beta := if s.betamax = ⊤ ∨ s.betamax = ⊥ then s.beta * 2
          else (s.beta + s.betamax.toReal) / 2
        betamin := (s.beta : EReal)
        betamax := s.betamax }
    else
      { beta := if s.betamin = ⊤ ∨ s.betamin = ⊥ then s.beta / 2
          else (s.beta + s.betamin.toReal) / 2
        betamin := s.betamin
        betamax := (s.beta : EReal) }

/-- The continuation test of the calibration loop:
`np.isnan(Hdiff) or np.abs(Hdiff) > self.eps`. -/
def loopCond (hdiff : Option ℝ) (eps : ℝ) : Prop :=
  match hdiff with
  | none => True
  | some hd => eps < |hd|

noncomputable instance loopCondDec (hdiff : Option ℝ) (eps : ℝ) :
    Decidable (loopCond hdiff eps) :=
  match hdiff with
  | none => isTrue trivial
  | some hd => Real.decidableLT eps |hd|

/-- The calibration loop of `SOS._d2a` for row `i`, running while
`loopCond` holds and fuel (the allowance `5000 - tries`) remains; after each
step the entropy and `Hdiff` are recomputed at the updated `beta`. -/
noncomputable def rowIter {n : ℕ} (D : Fin n → Fin n → ℝ) (i : Fin n)
    (logU eps : ℝ) : ℕ → RowState → RowState
  | 0, s => s
  | f + 1, s =>
    if loopCond (hdiffOf D i logU s.beta) eps then
      rowIter D i logU eps f (bisectStep s (hdiffOf D i logU s.beta))
    else s

/-- The number of iterations the calibration loop actually performs (the
final value of the `tries` counter of the source). -/
noncomputable def rowIterCount {n : ℕ} (D : Fin n → Fin n → ℝ) (i : Fin n)
    (logU eps : ℝ) : ℕ → RowState → ℕ
  | 0, _ => 0
  | f + 1, s =>
    if loopCond (hdiffOf D i logU s.beta) eps then
      rowIterCount D i logU eps f (bisectStep s (hdiffOf D i logU s.beta)) + 1
    else 0

/-- Final per-row state after the bounded loop (`tries` runs from 0 with the
guard `tries < 5000`, so at most 5000 iterations). -/
noncomputable def rowFinal {n : ℕ} (D : Fin n → Fin n → ℝ) (i : Fin n)
    (logU eps : ℝ) : RowState :=
  rowIter D i logU eps 5000 rowInit

/-- The value of the `tries` counter on exit from the loop for row `i`. -/
noncomputable def rowTries {n : ℕ} (D : Fin n → Fin n → ℝ) (i : Fin n)
    (logU eps : ℝ) : ℕ :=
  rowIterCount D i logU eps 5000 rowInit

/-- The affinity computation `SOS._d2a`.  `A` starts as `np.zeros((n, n))`
and row `i`'s off-diagonal positions receive, in their original column order,
the last kernel `thisA` computed by the loop.  In the source every assignment
to `thisA` is `_get_perplexity(Di, beta[i])` at the current `beta[i]`, so the
final kernel entry for column `j ≠ i` is `exp(-D[i,j] * beta_final)`; the
diagonal is never written and stays 0.  `logU = np.log(self.perplexity)`. -/
noncomputable def d2a {n : ℕ} (perplexity eps : ℝ)
    (D : Fin n → Fin n → ℝ) : Fin n → Fin n → ℝ :=
  fun i j =>
    if i = j then 0
    else Real.exp (-D i j * (rowFinal D i (Real.log perplexity) eps).beta)

/-- The binding-probability computation `SOS._a2b`:
`B = A / A.sum(axis=1)[:, np.newaxis]`, i.e. each row is divided by its sum.
A zero row sum gives numpy's undefined (NaN) row, not an exception; in the
real-number model this junk value is the total division by zero. -/
noncomputable def a2b {n : ℕ} (A : Fin n → Fin n → ℝ) : Fin n → Fin n → ℝ :=
  fun i j => A i j / ∑ k, A i k

/-- The score aggregation `SOS._b2o`: `O = np.prod(1 - B, 0)`, the columnwise
product over all rows of `1 - B[i,j]`. -/
noncomputable def b2o {n : ℕ} (B : Fin n → Fin n → ℝ) : Fin n → ℝ :=
  fun j => ∏ i, (1 - B i j)

/-- The full scoring pipeline on raw features with the euclidean metric, as
run by `fit`/`decision_function`: dissimilarity, affinity, binding
probability, score. -/
noncomputable def pipelineO {n dd : ℕ} (perplexity eps : ℝ)
    (X : Fin n → Fin dd → ℝ) : Fin n → ℝ :=
  b2o (a2b (d2a perplexity eps (euclidD X)))

/-- Input validation `check_array(X)` from scikit-learn (external library)
with its default arguments: the input must be 2-D (type-level here), all
entries must be finite (an entry `none` models a float NaN or infinity), at
least `ensure_min_samples = 1` row is required and at least
`ensure_min_features = 1` column is required.  On success the finite real
entries are extracted. -/
def checkArray {n dd : ℕ} (X : Fin n → Fin dd → Option ℝ) :
    Except String (Fin n → Fin dd → ℝ) :=
  if 1 ≤ n ∧ 1 ≤ dd ∧ ∀ i j, (X i j).isSome = true then
    .ok (fun i j => (X i j).getD 0)
  else
    .error "check_array: input must be finite and contain at least 1 sample and 1 feature"

/-- Fitted state produced by `fit`: `decision_scores_`, `threshold_`,
`labels_`. -/
structure FittedState (n : ℕ) where
  decisionScores : Fin n → ℝ
  threshold : ℝ
  labels : Fin n → ℕ

/-- Modelled from the spec: the decision-score processor
(`BaseDetector._process_decision_scores`, repository code not under `src/`).
Per spec sections 3 and 6 it is an external collaborator that, given the
score vector `O` and the contamination fraction, returns a threshold
splitting the top `contamination·n` scores as outliers and 0/1 labels
(`1` if the score exceeds the threshold); it has no failure mode. -/
noncomputable def processDecisionScores {n : ℕ} (O : Fin n → ℝ)
    (contamination : ℝ) : ℝ × (Fin n → ℕ) :=
  let t := sInf {x : ℝ |
    ((Finset.univ.filter fun i => x < O i).card : ℝ) ≤ contamination * n}
  (t, fun i => if t < O i then 1 else 0)

/-- The method `SOS.fit`: validates `X` with `check_array`, runs the four
stages, stores the scores and the processed threshold/labels.  The class-count
bookkeeping `_set_n_classes(y)` (repository code not under `src/`) touches no
stage data and is omitted.  The external scipy routine is the collaborator
`pd`, used only for metrics other than `'none'` and `'euclidean'`. -/
noncomputable def fitSOS {n dd : ℕ} (cfg : SOSConfig)
    (pd : String → (Fin n → Fin dd → ℝ) → Except String (Fin n → Fin n → ℝ))
    (Xraw : Fin n → Fin dd → Option ℝ) : Except String (FittedState n) :=
  match checkArray Xraw with
  | .error e => .error e
  | .ok X =>
    match x2d cfg.metric pd X with
    | .error e => .error e
    | .ok D =>
      let O := b2o (a2b (d2a cfg.perplexity cfg.eps D))
      let tl := processDecisionScores O cfg.contamination
      .ok ⟨O, tl.1, tl.2⟩

/-- Positivity invariant of the per-row calibration state: the precision is
strictly positive, and each bound, once finite, is strictly positive (bounds
only ever receive copies of earlier `beta` values). -/
def StatePos (s : RowState) : Prop :=
  0 < s.beta ∧ (s.betamin = ⊥ ∨ 0 < s.betamin) ∧ 0 < s.betamax

/-- Concrete 1×1 dissimilarity matrix used by witnesses. -/
def D1 : Fin 1 → Fin 1 → ℝ :=
  fun _ _ => 0

/-- Concrete 2×2 dissimilarity matrix used by witnesses. -/
def D2 : Fin 2 → Fin 2 → ℝ :=
  fun _ _ => 0

/-- Concrete 2×1 feature matrix (two equal rows) used by witnesses. -/
def X21 : Fin 2 → Fin 1 → ℝ :=
  fun _ _ => 0

/-- Concrete 2×3 (non-square) matrix used by witnesses. -/
def X23 : Fin 2 → Fin 3 → ℝ :=
  fun _ _ => 0

/-- Concrete 1×1 all-finite raw input used by the `fit` counterexample. -/
def X11 : Fin 1 → Fin 1 → Option ℝ :=
  fun _ _ => some 0

/-- Concrete 1×1 raw input with a non-finite entry, used by witnesses. -/
def X11bad : Fin 1 → Fin 1 → Option ℝ :=
  fun _ _ => none

/-- A stand-in for the external scipy distance routine used by witnesses:
every metric name is unsupported. -/
def pdFail {n dd : ℕ} :
    String → (Fin n → Fin dd → ℝ) → Except String (Fin n → Fin n → ℝ) :=
  fun _ _ => .error "Unknown Distance Metric"

/-- Concrete 2×2 affinity matrix with zero diagonal used by witnesses. -/
def A2 : Fin 2 → Fin 2 → ℝ :=
  fun i j => if i = j then 0 else 1

/-- Concrete 2×2 binding-probability matrix used by witnesses. -/
noncomputable def B2 : Fin 2 → Fin 2 → ℝ :=
  fun _ _ => 1 / 2

/-- A detector configured with the default parameters of `SOS.__init__`:
contamination 0.1, perplexity 4.5, metric `'euclidean'`, eps 1e-5. -/
noncomputable def cfgDef : SOSConfig :=
  mkSOS (1 / 10) (9 / 2) "euclidean" (1 / 100000)

/-! ## Theorems -/

/-- Pointwise expansion used for the euclidean dissimilarity: the entry under
the square root is the squared distance between rows `i` and `j`. -/
theorem euclidD_inner_eq {n dd : ℕ} (X : Fin n → Fin dd → ℝ) (i j : Fin n) :
    (-2 * ∑ k, X j k * X i k + ∑ k, X i k ^ 2) + ∑ k, X j k ^ 2
      = ∑ k, (X i k - X j k) ^ 2 := by
  have h1 : ∀ k, (X i k - X j k) ^ 2
      = X i k ^ 2 - 2 * (X j k * X i k) + X j k ^ 2 := fun k => by ring
  simp only [h1]
  rw [Finset.sum_add_distrib, Finset.sum_sub_distrib, ← Finset.mul_sum]
  ring

/-- The entry under the square root in `euclidD` is nonnegative. -/
theorem euclidD_inner_nonneg {n dd : ℕ} (X : Fin n → Fin dd → ℝ) (i j : Fin n) :
    0 ≤ (-2 * ∑ k, X j k * X i k + ∑ k, X i k ^ 2) + ∑ k, X j k ^ 2 := by
  rw [euclidD_inner_eq]
  exact Finset.sum_nonneg fun k _ => sq_nonneg _

/-- C1: for every binding-probability matrix `B`, `_b2o` returns the score
vector with `O[j] = ∏ i, (1 - B[i,j])`, a columnwise reduction over all rows
including `i = j`; and whenever every entry of `B` lies in `[0, 1]` (every
real entry is finite), every `O[j]` lies in `[0, 1]`. -/
theorem sos_c1 {n : ℕ} (B : Fin n → Fin n → ℝ) :
    (∀ j, b2o B j = ∏ i, (1 - B i j)) ∧
    ((∀ i j, 0 ≤ B i j ∧ B i j ≤ 1) → ∀ j, 0 ≤ b2o B j ∧ b2o B j ≤ 1) := by
  refine ⟨fun j => rfl, fun h j => ⟨?_, ?_⟩⟩
  · exact Finset.prod_nonneg fun i _ => by linarith [(h i j).2]
  · exact Finset.prod_le_one (fun i _ => by linarith [(h i j).2])
      (fun i _ => by linarith [(h i j).1])

/-- Witness for C1 at the concrete binding-probability matrix `B2`. -/
theorem sos_c1_witness :
    0 ≤ b2o B2 0 ∧ b2o B2 0 ≤ 1 :=
  (sos_c1 B2).2 (fun i j => by unfold B2; norm_num) 0

/-- C2: with the precomputed-dissimilarity metric (spelled `'none'` in the
code), `_x2d` fails with the shape-mismatch error before any matrix
computation when `X` is not square, and returns `D = X` unchanged when `X`
is square. -/
theorem sos_c2 {n dd : ℕ}
    (pd : String → (Fin n → Fin dd → ℝ) → Except String (Fin n → Fin n → ℝ))
    (X : Fin n → Fin dd → ℝ) :
    (n ≠ dd → x2d "none" pd X =
      .error "If you specify 'none' as the metric, the data set should be a square dissimilarity matrix") ∧
    (∀ h : n = dd, x2d "none" pd X = .ok (fun i j => X i (Fin.cast h j))) := by
  constructor
  · intro hne
    unfold x2d
    rw [if_pos rfl, dif_neg hne]
  · intro h
    unfold x2d
    rw [if_pos rfl, dif_pos h]

/-- Witness for C2: a 2×3 input with the precomputed metric produces the
shape-mismatch error, and a square input is returned unchanged. -/
theorem sos_c2_witness :
    x2d "none" pdFail X23 =
      .error "If you specify 'none' as the metric, the data set should be a square dissimilarity matrix" ∧
    x2d "none" pdFail D2 = .ok (fun i j => D2 i (Fin.cast rfl j)) :=
  ⟨(sos_c2 pdFail X23).1 (by decide), (sos_c2 pdFail D2).2 rfl⟩

/-- C5: with the euclidean metric, `_x2d` returns the matrix
`D[i,j] = sqrt(max(0, ‖x_i‖² + ‖x_j‖² - 2·x_i·x_j))` (the code's absolute
value agrees with the clamp since the argument is a nonnegative squared
distance); consequently `D` is symmetric, has zero diagonal, and vanishes on
pairs of equal rows. -/
theorem sos_c5 {n dd : ℕ}
    (pd : String → (Fin n → Fin dd → ℝ) → Except String (Fin n → Fin n → ℝ))
    (X : Fin n → Fin dd → ℝ) :
    x2d "euclidean" pd X = .ok (euclidD X) ∧
    (∀ i j, euclidD X i j =
      Real.sqrt (max 0 ((∑ k, X i k ^ 2) + (∑ k, X j k ^ 2) - 2 * ∑ k, X i k * X j k))) ∧
    (∀ i j, euclidD X i j = euclidD X j i) ∧
    (∀ i, euclidD X i i = 0) ∧
    (∀ i j, (∀ k, X i k = X j k) → euclidD X i j = 0) := by
  have hdiagzero : ∀ i : Fin n,
      (-2 * ∑ k, X i k * X i k + ∑ k, X i k ^ 2) + ∑ k, X i k ^ 2 = 0 := by
    intro i
    rw [Finset.sum_congr rfl fun k _ => (pow_two (X i k)).symm]
    ring
  refine ⟨?_, ?_, ?_, ?_, ?_⟩
  · unfold x2d
    rw [if_neg (by decide), if_pos rfl]
  · intro i j
    have he : (∑ k, X i k ^ 2) + (∑ k, X j k ^ 2) - 2 * ∑ k, X i k * X j k
        = (-2 * ∑ k, X j k * X i k + ∑ k, X i k ^ 2) + ∑ k, X j k ^ 2 := by
      rw [Finset.sum_congr rfl fun k _ => mul_comm (X i k) (X j k)]
      ring
    unfold euclidD
    rw [he, abs_of_nonneg (euclidD_inner_nonneg X i j),
      max_eq_right (euclidD_inner_nonneg X i j)]
  · intro i j
    have h : (-2 * ∑ k, X j k * X i k + ∑ k, X i k ^ 2) + ∑ k, X j k ^ 2
        = (-2 * ∑ k, X i k * X j k + ∑ k, X j k ^ 2) + ∑ k, X i k ^ 2 := by
      rw [Finset.sum_congr rfl fun k _ => mul_comm (X j k) (X i k)]
      ring
    unfold euclidD
    rw [h]
  · intro i
    unfold euclidD
    rw [hdiagzero i, abs_zero, Real.sqrt_zero]
  · intro i j hrow
    unfold euclidD
    simp only [hrow]
    rw [hdiagzero j, abs_zero, Real.sqrt_zero]

/-- Witness for C5 at the concrete feature matrix `X21`, whose two rows are
equal, so their dissimilarity is zero. -/
theorem sos_c5_witness :
    euclidD X21 0 1 = 0 :=
  (sos_c5 pdFail X21).2.2.2.2 0 1 (fun _ => rfl)

/-- C6: `_a2b` divides each row of the affinity matrix by its row sum; for an
affinity matrix (zero diagonal, per the data model) with nonzero row sum the
off-diagonal entries of the row sum to 1 and the diagonal entry stays 0; a
zero row sum produces numpy's undefined (NaN) row — modelled by the total
junk value of division by zero — rather than raising an error. -/
theorem sos_c6 {n : ℕ} (A : Fin n → Fin n → ℝ) (i : Fin n) (hdiag : A i i = 0) :
    (∀ j, a2b A i j = A i j / ∑ k, A i k) ∧
    ((∑ k, A i k) ≠ 0 →
      (∑ j ∈ Finset.univ.erase i, a2b A i j) = 1 ∧ a2b A i i = 0) ∧
    ((∑ k, A i k) = 0 → ∀ j, a2b A i j = A i j / 0) := by
  have hBii : a2b A i i = 0 := by
    unfold a2b
    rw [hdiag, zero_div]
  refine ⟨fun j => rfl, fun hs => ⟨?_, hBii⟩, fun hz j => ?_⟩
  · rw [Finset.sum_erase _ hBii]
    unfold a2b
    rw [← Finset.sum_div, div_self hs]
  · unfold a2b
    rw [hz]

/-- Witness for C6 at the concrete affinity matrix `A2` (zero diagonal,
row sums equal to 1). -/
theorem sos_c6_witness :
    (∑ j ∈ Finset.univ.erase (0 : Fin 2), a2b A2 0 j) = 1 ∧ a2b A2 0 0 = 0 :=
  (sos_c6 A2 0 (by norm_num [A2])).2.1 (by norm_num [A2, Fin.sum_univ_two])

/-- The loop's iteration counter never exceeds the remaining allowance. -/
theorem rowIterCount_le {n : ℕ} (D : Fin n → Fin n → ℝ) (i : Fin n)
    (logU eps : ℝ) : ∀ (f : ℕ) (s : RowState), rowIterCount D i logU eps f s ≤ f := by
  intro f
  induction f with
  | zero => intro s; simp [rowIterCount]
  | succ f ih =>
    intro s
    simp only [rowIterCount]
    split
    · exact Nat.succ_le_succ (ih _)
    · exact Nat.zero_le _

/-- C3: one iteration of the per-row calibration loop: on NaN (`none`) the
precision is divided by 10 with the bounds untouched; on `Hdiff > 0` the old
precision becomes `betamin` and the precision is doubled while `betamax` is
unbounded, otherwise averaged with `betamax`; on `Hdiff < 0` the old
precision becomes `betamax` and the precision is halved while `betamin` is
unbounded, otherwise averaged with `betamin`; and when the loop guard holds
the loop takes exactly this step and then recomputes entropy and kernel
(`hdiffOf` is re-evaluated at the updated precision on the next pass). -/
theorem sos_c3 {n : ℕ} (D : Fin n → Fin n → ℝ) (i : Fin n) (logU eps : ℝ)
    (f : ℕ) (s : RowState) (hd : Option ℝ) :
    (hd = none → bisectStep s hd = { s with beta := s.beta / 10 }) ∧
    (∀ x, hd = some x → 0 < x → bisectStep s hd =
      { beta := if s.betamax = ⊤ ∨ s.betamax = ⊥ then s.beta * 2
          else (s.beta + s.betamax.toReal) / 2
        betamin := (s.beta : EReal)
        betamax := s.betamax }) ∧
    (∀ x, hd = some x → x < 0 → bisectStep s hd =
      { beta := if s.betamin = ⊤ ∨ s.betamin = ⊥ then s.beta / 2
          else (s.beta + s.betamin.toReal) / 2
        betamin := s.betamin
        betamax := (s.beta : EReal) }) ∧
    (loopCond (hdiffOf D i logU s.beta) eps →
      rowIter D i logU eps (f + 1) s =
        rowIter D i logU eps f (bisectStep s (hdiffOf D i logU s.beta))) := by
  refine ⟨?_, ?_, ?_, ?_⟩
  · rintro rfl
    rfl
  · rintro x rfl hx
    simp only [bisectStep]
    rw [if_pos hx]
  · rintro x rfl hx
    simp only [bisectStep]
    rw [if_neg (not_lt.mpr hx.le)]
  · intro hc
    simp only [rowIter]
    rw [if_pos hc]

/-- Witness for C3: from the initial state, a NaN `Hdiff` divides the
precision by 10 and leaves both bounds unchanged. -/
theorem sos_c3_witness :
    bisectStep rowInit none = { rowInit with beta := rowInit.beta / 10 } :=
  (sos_c3 D1 0 0 0 0 rowInit none).1 rfl

/-- C4: calibration of each row performs at most 5000 loop iterations
(exhaustion is not an error — the function is total for every perplexity,
including one exceeding the achievable entropy), the diagonal entry of `A`'s
row `i` is 0, and each off-diagonal position `j` receives, in its original
column order, the last computed kernel value
`exp(-D[i,j] · beta_final)`. -/
theorem sos_c4 {n : ℕ} (D : Fin n → Fin n → ℝ) (perplexity eps : ℝ)
    (i j : Fin n) :
    rowTries D i (Real.log perplexity) eps ≤ 5000 ∧
    d2a perplexity eps D i i = 0 ∧
    (i ≠ j → d2a perplexity eps D i j =
      Real.exp (-D i j * (rowFinal D i (Real.log perplexity) eps).beta)) := by
  refine ⟨rowIterCount_le D i (Real.log perplexity) eps 5000 rowInit, ?_, ?_⟩
  · unfold d2a
    rw [if_pos rfl]
  · intro hij
    unfold d2a
    rw [if_neg hij]

/-- Witness for C4 at the concrete matrix `D2` with perplexity 2 (with n = 2
this perplexity exceeds the achievable entropy, and the loop still obeys the
5000-iteration bound). -/
theorem sos_c4_witness :
    rowTries D2 0 (Real.log 2) 1 ≤ 5000 ∧
    d2a 2 1 D2 0 1 = Real.exp (-D2 0 1 * (rowFinal D2 0 (Real.log 2) 1).beta) :=
  ⟨(sos_c4 D2 2 1 0 1).1, (sos_c4 D2 2 1 0 1).2.2 (by decide)⟩

/-- Every loop step of the calibration preserves the positivity invariant:
the precision stays positive and the bounds, once finite, are positive. -/
theorem statePos_bisectStep (s : RowState) (hd : Option ℝ) (h : StatePos s) :
    StatePos (bisectStep s hd) := by
  obtain ⟨hb, hmin, hmax⟩ := h
  cases hd with
  | none => exact ⟨div_pos hb (by norm_num), hmin, hmax⟩
  | some x =>
    simp only [bisectStep]
    by_cases hx : 0 < x
    · rw [if_pos hx]
      refine ⟨?_, Or.inr (EReal.coe_pos.mpr hb), hmax⟩
      show 0 < if s.betamax = ⊤ ∨ s.betamax = ⊥ then s.beta * 2
        else (s.beta + s.betamax.toReal) / 2
      by_cases hm : s.betamax = ⊤ ∨ s.betamax = ⊥
      · rw [if_pos hm]
        exact mul_pos hb two_pos
      · rw [if_neg hm]
        have hne_top : s.betamax ≠ ⊤ := fun hh => hm (Or.inl hh)
        have hne_bot : s.betamax ≠ ⊥ := fun hh => hm (Or.inr hh)
        have h0 : 0 < s.betamax.toReal := by
          have hc := EReal.coe_toReal hne_top hne_bot
          rw [← hc] at hmax
          exact EReal.coe_pos.mp hmax
        exact div_pos (add_pos hb h0) two_pos
    · rw [if_neg hx]
      refine ⟨?_, hmin, EReal.coe_pos.mpr hb⟩
      show 0 < if s.betamin = ⊤ ∨ s.betamin = ⊥ then s.beta / 2
        else (s.beta + s.betamin.toReal) / 2
      by_cases hm : s.betamin = ⊤ ∨ s.betamin = ⊥
      · rw [if_pos hm]
        exact half_pos hb
      · rw [if_neg hm]
        have hne_top : s.betamin ≠ ⊤ := fun hh => hm (Or.inl hh)
        have hne_bot : s.betamin ≠ ⊥ := fun hh => hm (Or.inr hh)
        have hminpos : 0 < s.betamin := hmin.resolve_left hne_bot
        have h0 : 0 < s.betamin.toReal := by
          have hc := EReal.coe_toReal hne_top hne_bot
          rw [← hc] at hminpos
          exact EReal.coe_pos.mp hminpos
        exact div_pos (add_pos hb h0) two_pos

/-- C9: the per-row precision is strictly positive at every point of the
calibration: the initial state (`beta = 1`, unbounded bisection bounds)
satisfies the positivity invariant, every loop update — division by 10,
doubling, halving, or averaging with a previously stored finite bound —
preserves it, and hence the precision after any number of loop iterations is
strictly positive. -/
theorem sos_c9 {n : ℕ} (D : Fin n → Fin n → ℝ) (i : Fin n) (logU eps : ℝ)
    (f : ℕ) (s : RowState) (hd : Option ℝ) (h : StatePos s) :
    StatePos rowInit ∧ StatePos (bisectStep s hd) ∧
      0 < (rowIter D i logU eps f s).beta := by
  have hinit : StatePos rowInit := ⟨one_pos, Or.inl rfl, EReal.zero_lt_top⟩
  have key : ∀ (f : ℕ) (s : RowState), StatePos s →
      0 < (rowIter D i logU eps f s).beta := by
    intro f
    induction f with
    | zero => exact fun s hs => hs.1
    | succ f ih =>
      intro s hs
      simp only [rowIter]
      split
      · exact ih _ (statePos_bisectStep _ _ hs)
      · exact hs.1
  exact ⟨hinit, statePos_bisectStep s hd h, key f s h⟩

/-- Witness for C9: across the full 5000-iteration allowance from the initial
state, the precision of row 0 of `D1` remains strictly positive. -/
theorem sos_c9_witness :
    0 < (rowIter D1 0 0 0 5000 rowInit).beta :=
  (sos_c9 D1 0 0 0 5000 rowInit none ⟨one_pos, Or.inl rfl, EReal.zero_lt_top⟩).2.2

/-- Reindexing a sum over the off-diagonal columns of a row by a permutation. -/
theorem sum_erase_comp_perm {n : ℕ} (π : Equiv.Perm (Fin n)) (i : Fin n)
    (g : Fin n → ℝ) :
    ∑ j ∈ Finset.univ.erase i, g (π j) = ∑ j ∈ Finset.univ.erase (π i), g j := by
  refine Finset.sum_equiv π (fun j => ?_) (fun j _ => rfl)
  simp [Finset.mem_erase, π.injective.ne_iff]

/-- The entropy of a row of a permuted dissimilarity matrix equals the
entropy of the corresponding original row: `_get_perplexity` only takes sums
over the off-diagonal entries, which are permutation-invariant. -/
theorem getPerplexityH_perm {n : ℕ} (D : Fin n → Fin n → ℝ)
    (π : Equiv.Perm (Fin n)) (i : Fin n) (beta : ℝ) :
    getPerplexityH (fun a b => D (π a) (π b)) i beta
      = getPerplexityH D (π i) beta := by
  simp only [getPerplexityH]
  rw [sum_erase_comp_perm π i fun t => Real.exp (-D (π i) t * beta),
    sum_erase_comp_perm π i fun t => D (π i) t * Real.exp (-D (π i) t * beta)]

/-- The calibration loop run on a permuted dissimilarity matrix coincides,
row by row, with the loop on the original matrix at the permuted row. -/
theorem rowIter_perm {n : ℕ} (D : Fin n → Fin n → ℝ) (π : Equiv.Perm (Fin n))
    (i : Fin n) (logU eps : ℝ) :
    ∀ (f : ℕ) (s : RowState),
      rowIter (fun a b => D (π a) (π b)) i logU eps f s
        = rowIter D (π i) logU eps f s := by
  intro f
  induction f with
  | zero => intro s; rfl
  | succ f ih =>
    intro s
    have hh : hdiffOf (fun a b => D (π a) (π b)) i logU s.beta
        = hdiffOf D (π i) logU s.beta := by
      unfold hdiffOf
      rw [getPerplexityH_perm]
    simp only [rowIter, hh]
    split
    · exact ih _
    · rfl

/-- Affinity calibration commutes with a simultaneous permutation of both
axes of the dissimilarity matrix. -/
theorem d2a_perm {n : ℕ} (perplexity eps : ℝ) (D : Fin n → Fin n → ℝ)
    (π : Equiv.Perm (Fin n)) (i j : Fin n) :
    d2a perplexity eps (fun a b => D (π a) (π b)) i j
      = d2a perplexity eps D (π i) (π j) := by
  have hrow : rowFinal (fun a b => D (π a) (π b)) i (Real.log perplexity) eps
      = rowFinal D (π i) (Real.log perplexity) eps := by
    unfold rowFinal
    exact rowIter_perm D π i (Real.log perplexity) eps 5000 rowInit
  simp only [d2a, hrow]
  by_cases hij : i = j
  · rw [if_pos hij, if_pos (congrArg π hij)]
  · rw [if_neg hij, if_neg fun hc => hij (π.injective hc)]

/-- Row normalization commutes with a simultaneous permutation of both axes. -/
theorem a2b_perm {n : ℕ} (A : Fin n → Fin n → ℝ) (π : Equiv.Perm (Fin n))
    (i j : Fin n) :
    a2b (fun a b => A (π a) (π b)) i j = a2b A (π i) (π j) := by
  simp only [a2b]
  rw [Equiv.sum_comp π (A (π i))]

/-- The columnwise score aggregation maps a matrix permuted on both axes to
the permuted score vector. -/
theorem b2o_perm {n : ℕ} (B : Fin n → Fin n → ℝ) (π : Equiv.Perm (Fin n))
    (j : Fin n) :
    b2o (fun a b => B (π a) (π b)) j = b2o B (π j) := by
  simp only [b2o]
  exact Equiv.prod_comp π fun t => 1 - B t (π j)

/-- C7: permutation equivariance of the full euclidean pipeline: permuting
the rows of `X` by `π` permutes `D`, `A` and `B` by `π` on both axes and the
score vector `O` by `π` — scores track their sample, not their row
position. -/
theorem sos_c7 {n dd : ℕ} (perplexity eps : ℝ) (X : Fin n → Fin dd → ℝ)
    (π : Equiv.Perm (Fin n)) :
    (∀ i j, euclidD (fun a k => X (π a) k) i j = euclidD X (π i) (π j)) ∧
    (∀ i j, d2a perplexity eps (euclidD (fun a k => X (π a) k)) i j
      = d2a perplexity eps (euclidD X) (π i) (π j)) ∧
    (∀ i j, a2b (d2a perplexity eps (euclidD (fun a k => X (π a) k))) i j
      = a2b (d2a perplexity eps (euclidD X)) (π i) (π j)) ∧
    (∀ j, pipelineO perplexity eps (fun a k => X (π a) k) j
      = pipelineO perplexity eps X (π j)) := by
  have hD : euclidD (fun a k => X (π a) k)
      = fun a b => euclidD X (π a) (π b) := by
    funext a b
    rfl
  have hA : d2a perplexity eps (euclidD (fun a k => X (π a) k))
      = fun a b => d2a perplexity eps (euclidD X) (π a) (π b) := by
    funext a b
    rw [hD]
    exact d2a_perm perplexity eps (euclidD X) π a b
  have hB : a2b (d2a perplexity eps (euclidD (fun a k => X (π a) k)))
      = fun a b => a2b (d2a perplexity eps (euclidD X)) (π a) (π b) := by
    funext a b
    rw [hA]
    exact a2b_perm (d2a perplexity eps (euclidD X)) π a b
  refine ⟨fun i j => by rw [hD], fun i j => by rw [hA], fun i j => by rw [hB],
    fun j => ?_⟩
  unfold pipelineO
  rw [hB]
  exact b2o_perm (a2b (d2a perplexity eps (euclidD X))) π j

/-- C8 (amended): `fit` validates `X` with scikit-learn's `check_array`
before running the pipeline: it fails with a validation error, performing no
stage computation, if `X` contains non-finite values, has no rows
(`check_array`'s default `ensure_min_samples` is 1, not 2) or has no columns
(`ensure_min_features` is 1); a shape inconsistent with the `'none'` metric
also fails before any matrix work; and any finite input with at least one
row and one feature — in particular a single-row input — passes validation
and `fit` succeeds with the euclidean metric. -/
theorem sos_c8 {n dd : ℕ} (cfg : SOSConfig)
    (pd : String → (Fin n → Fin dd → ℝ) → Except String (Fin n → Fin n → ℝ))
    (Xraw : Fin n → Fin dd → Option ℝ) :
    (¬ (1 ≤ n ∧ 1 ≤ dd ∧ ∀ i j, (Xraw i j).isSome = true) →
      fitSOS cfg pd Xraw =
        .error "check_array: input must be finite and contain at least 1 sample and 1 feature") ∧
    ((1 ≤ n ∧ 1 ≤ dd ∧ ∀ i j, (Xraw i j).isSome = true) → cfg.metric = "none" →
      n ≠ dd → ∃ e, fitSOS cfg pd Xraw = .error e) ∧
    ((1 ≤ n ∧ 1 ≤ dd ∧ ∀ i j, (Xraw i j).isSome = true) → cfg.metric = "euclidean" →
      ∃ r, fitSOS cfg pd Xraw = .ok r) := by
  refine ⟨?_, ?_, ?_⟩
  · intro hbad
    have hca : checkArray Xraw =
        .error "check_array: input must be finite and contain at least 1 sample and 1 feature" := by
      unfold checkArray
      rw [if_neg hbad]
    simp only [fitSOS, hca]
  · intro hok hm hne
    have hca : checkArray Xraw = .ok (fun i j => (Xraw i j).getD 0) := by
      unfold checkArray
      rw [if_pos hok]
    simp only [fitSOS, hca, hm]
    rw [(sos_c2 pd (fun i j => (Xraw i j).getD 0)).1 hne]
    exact ⟨_, rfl⟩
  · intro hok hm
    have hca : checkArray Xraw = .ok (fun i j => (Xraw i j).getD 0) := by
      unfold checkArray
      rw [if_pos hok]
    simp only [fitSOS, hca, hm]
    rw [(sos_c5 pd (fun i j => (Xraw i j).getD 0)).1]
    exact ⟨_, rfl⟩

/-- Witness for C8 (amended): a 1×1 input with a non-finite entry makes
`fit` fail with the validation error before any stage computation. -/
theorem sos_c8_witness :
    fitSOS cfgDef pdFail X11bad =
      .error "check_array: input must be finite and contain at least 1 sample and 1 feature" :=
  (sos_c8 cfgDef pdFail X11bad).1 (by decide)

/-- Counterexample for C8 as stated: the claim demands a validation failure
for every input with fewer than 2 rows, but a finite 1×1 input passes
`check_array` (whose default minimum is 1 sample) and `fit` succeeds with
the default euclidean configuration. -/
theorem sos_c8_counterexample :
    (fitSOS cfgDef pdFail X11).isOk = true := by
  have hca : checkArray X11 = .ok (fun i j => (X11 i j).getD 0) := by
    unfold checkArray
    rw [if_pos ⟨le_refl 1, le_refl 1, fun i j => rfl⟩]
  have hm : cfgDef.metric = "euclidean" := by decide
  have hx : x2d cfgDef.metric pdFail (fun i j => (X11 i j).getD 0)
      = .ok (euclidD (fun i j => (X11 i j).getD 0)) := by
    rw [hm]
    unfold x2d
    rw [if_neg (by decide), if_pos rfl]
  simp only [fitSOS, hca, hx]
  rfl

/-- Lowercasing a character twice is the same as lowercasing it once. -/
theorem charLower_idem (c : Char) : charLower (charLower c) = charLower c := by
  by_cases h : 65 ≤ c.toNat ∧ c.toNat ≤ 90
  · have h1 : charLower c = Char.ofNat (c.toNat + 32) := by
      unfold charLower
      rw [if_pos h]
    have hvalid : Nat.isValidChar (c.toNat + 32) := Or.inl (by omega)
    have hv : (Char.ofNat (c.toNat + 32)).toNat = c.toNat + 32 := by
      unfold Char.ofNat
      rw [dif_pos hvalid]
      rfl
    rw [h1]
    unfold charLower
    rw [if_neg (by rw [hv]; omega)]
  · have h1 : charLower c = c := by
      unfold charLower
      rw [if_neg h]
    rw [h1]
    exact h1

/-- Lowercasing a string twice is the same as lowercasing it once. -/
theorem strLower_idem (s : String) : strLower (strLower s) = strLower s := by
  unfold strLower
  refine congrArg String.mk ?_
  show (s.data.map charLower).map charLower = s.data.map charLower
  rw [List.map_map]
  exact List.map_congr_left fun a _ => charLower_idem a

/-- C10: metric-name matching is case-insensitive: the constructor lowercases
the metric name, so a detector configured with any casing of a metric name is
the very same configuration as with the lowercase name, and computes the
same dissimilarity matrices, the same fitted scores, and the same errors. -/
theorem sos_c10 {n dd : ℕ} (contamination perplexity eps : ℝ) (metric : String)
    (pd : String → (Fin n → Fin dd → ℝ) → Except String (Fin n → Fin n → ℝ))
    (X : Fin n → Fin dd → ℝ) (Xraw : Fin n → Fin dd → Option ℝ) :
    mkSOS contamination perplexity metric eps
      = mkSOS contamination perplexity (strLower metric) eps ∧
    x2d (mkSOS contamination perplexity metric eps).metric pd X
      = x2d (mkSOS contamination perplexity (strLower metric) eps).metric pd X ∧
    fitSOS (mkSOS contamination perplexity metric eps) pd Xraw
      = fitSOS (mkSOS contamination perplexity (strLower metric) eps) pd Xraw := by
  have hm : mkSOS contamination perplexity metric eps
      = mkSOS contamination perplexity (strLower metric) eps := by
    unfold mkSOS
    rw [strLower_idem]
  exact ⟨hm, by rw [hm], by rw [hm]⟩

end SOSModel
